import Mathlib

/-!
Shallow embedding of the race-analysis dashboard's transform core
(race_preprocessing.py, gap_evolution_chart.py, lap_position_chart.py,
driver_pace_comparison_chart.py).  Text fields are `String` (char lists
underneath), numeric seconds are `ℚ`, missing values are `Option`.
-/

/-- Splits a character list on a separator character, Python `str.split(sep)`:
`splitOnChar ':' "a:b"` = `["a", "b"]`, and the empty string gives `[[]]`. -/
def splitOnChar (sep : Char) : List Char → List (List Char)
  | [] => [[]]
  | c :: rest =>
    if c = sep then [] :: splitOnChar sep rest
    else
      match splitOnChar sep rest with
      | [] => [[c]]
      | p :: ps => (c :: p) :: ps

/-- Joins character lists with a separator character; left inverse of `splitOnChar`. -/
def joinSep (sep : Char) : List (List Char) → List Char
  | [] => []
  | [p] => p
  | p :: q :: ps => p ++ sep :: joinSep sep (q :: ps)

/-- Value of a list of decimal digit characters, most significant first. -/
def digitsToNat (l : List Char) : ℕ :=
  l.foldl (fun acc c => acc * 10 + (c.toNat - 48)) 0

/-- All characters are decimal digits. -/
def allDigits (l : List Char) : Bool :=
  l.all Char.isDigit

/-- Python `int(s)` on a decimal numeral: optional sign followed by a nonempty
run of digits; anything else raises, modelled as `none`. -/
def pyInt (s : List Char) : Option ℤ :=
  match s with
  | [] => none
  | c :: rest =>
    if c = '-' then
      if rest ≠ [] ∧ allDigits rest then some (-(digitsToNat rest : ℤ)) else none
    else if c = '+' then
      if rest ≠ [] ∧ allDigits rest then some ((digitsToNat rest : ℤ)) else none
    else
      if allDigits (c :: rest) then some ((digitsToNat (c :: rest) : ℤ)) else none

/-- Unsigned part of Python `float(s)` on a plain decimal numeral:
`digits`, `digits.digits`, `digits.` or `.digits` (exponent / inf / nan forms do
not occur in timing data and are not modelled). -/
def pyFloatMag (s : List Char) : Option ℚ :=
  match splitOnChar '.' s with
  | [ip] =>
    if ip ≠ [] ∧ allDigits ip then some ((digitsToNat ip : ℚ)) else none
  | [ip, fp] =>
    if (ip ≠ [] ∨ fp ≠ []) ∧ allDigits ip ∧ allDigits fp then
      some ((digitsToNat ip : ℚ) + (digitsToNat fp : ℚ) / (10 : ℚ) ^ fp.length)
    else none
  | _ => none

/-- Python `float(s)` on a plain decimal numeral with optional sign; anything
else raises, modelled as `none`. -/
def pyFloat (s : List Char) : Option ℚ :=
  match s with
  | [] => pyFloatMag []
  | c :: rest =>
    if c = '-' then (pyFloatMag rest).map (fun q => -q)
    else if c = '+' then pyFloatMag rest
    else pyFloatMag (c :: rest)

/-- `lap_to_seconds` from `preprocess_race` (race_preprocessing.py): split
LAP_TIME on `:`, unpack exactly two parts `mins, secs`, return
`int(mins) * 60 + float(secs)`; any exception (wrong part count or failed
numeric parse) yields `None`. -/
def lap_to_seconds (x : String) : Option ℚ :=
  match splitOnChar ':' x.data with
  | [mins, secs] =>
    match pyInt mins, pyFloat secs with
    | some m, some s => some ((m : ℚ) * 60 + s)
    | _, _ => none
  | _ => none

/-- `time_to_seconds` from gap_evolution_chart.py: three colon-separated parts
give `int(h)*3600 + int(m)*60 + float(s)`, two give `int(m)*60 + float(s)`,
otherwise the whole string is passed to `float`; any exception yields `None`. -/
def time_to_seconds (t : String) : Option ℚ :=
  match splitOnChar ':' t.data with
  | [h, m, s] =>
    match pyInt h, pyInt m, pyFloat s with
    | some hv, some mv, some sv => some ((hv : ℚ) * 3600 + (mv : ℚ) * 60 + sv)
    | _, _, _ => none
  | [m, s] =>
    match pyInt m, pyFloat s with
    | some mv, some sv => some ((mv : ℚ) * 60 + sv)
    | _, _ => none
  | _ => pyFloat t.data

/-- `parse_time` inside `parse_hour_with_date_and_rollover`: try
`strptime` formats `%H:%M:%S.%f` then `%H:%M:%S` (fields of one or two digits
in range, fraction of one to six digits); failure of both gives `None`.
The resulting time of day is represented as seconds into the day. -/
def parse_time (s : String) : Option ℚ :=
  match splitOnChar ':' s.data with
  | [hs, ms, rest] =>
    if hs ≠ [] ∧ hs.length ≤ 2 ∧ allDigits hs ∧ digitsToNat hs < 24
        ∧ ms ≠ [] ∧ ms.length ≤ 2 ∧ allDigits ms ∧ digitsToNat ms < 60 then
      match splitOnChar '.' rest with
      | [ss, fs] =>
        if ss ≠ [] ∧ ss.length ≤ 2 ∧ allDigits ss ∧ digitsToNat ss < 60
            ∧ fs ≠ [] ∧ fs.length ≤ 6 ∧ allDigits fs then
          some (((digitsToNat hs * 3600 + digitsToNat ms * 60 + digitsToNat ss : ℕ) : ℚ)
            + (digitsToNat fs : ℚ) / (10 : ℚ) ^ fs.length)
        else none
      | [ss] =>
        if ss ≠ [] ∧ ss.length ≤ 2 ∧ allDigits ss ∧ digitsToNat ss < 60 then
          some (((digitsToNat hs * 3600 + digitsToNat ms * 60 + digitsToNat ss : ℕ) : ℚ))
        else none
      | _ => none
    else none
  | _ => none

/-- Arithmetic mean of a list of rationals (pandas `.mean()`). -/
def listMean (l : List ℚ) : ℚ :=
  l.sum / (l.length : ℚ)

/-- `compute_driver_percentile_average` (driver_pace_comparison_chart.py):
`None` for zero laps, otherwise the mean of the first
`max 1 (n * percentile / 100)` rows of the (pre-sorted) lap table. -/
def compute_driver_percentile_average (laps : List ℚ) (percentile : ℕ) : Option ℚ :=
  if laps.length = 0 then none
  else some (listMean (laps.take (max 1 (laps.length * percentile / 100))))

/-- One row of the raw timing table, with the columns the race preprocessor
touches; `lapTimeSeconds` models the derived LAP_TIME_SECONDS column
(`none` = absent or NaN). -/
structure RaceRow where
  number : String
  team : String
  cls : String
  driver : String
  lapNumber : Int
  lapTime : String
  lapTimeSeconds : Option ℚ
deriving DecidableEq, Repr

/-- `preprocess_race` (race_preprocessing.py): copy the table, set
LAP_TIME_SECONDS from `lap_to_seconds` of LAP_TIME, drop rows where it is null. -/
def preprocess_race (df : List RaceRow) : List RaceRow :=
  (df.map (fun r => { r with lapTimeSeconds := lap_to_seconds r.lapTime })).filter
    (fun r => r.lapTimeSeconds.isSome)

/-- First-occurrence deduplication with an accumulator of already seen
elements; `uniqList` below models pandas `unique()` (first-occurrence order). -/
def uniqAux {α : Type} [DecidableEq α] (seen : List α) : List α → List α
  | [] => []
  | x :: xs => if x ∈ seen then uniqAux seen xs else x :: uniqAux (x :: seen) xs

/-- pandas `Series.unique()`: distinct values in first-occurrence order. -/
def uniqList {α : Type} [DecidableEq α] (l : List α) : List α :=
  uniqAux [] l

/-- One row of the table as seen by `parse_hour_with_date_and_rollover`
(gap_evolution_chart.py): car NUMBER, LAP_NUMBER and the textual HOUR field. -/
structure HourRow where
  number : String
  lapNumber : Int
  hour : String
deriving DecidableEq, Repr

/-- Inner loop of `parse_hour_with_date_and_rollover` for one car: walk the
car's rows carrying the current date (days after the race-start date) and the
last successfully parsed time of day.  An unparsable HOUR yields `none` (NaT)
and leaves the state untouched; otherwise, when the parsed time is strictly
before the previous one the date advances by one day (`last_time` is a Python
`datetime.time`, which is always truthy, so the guard is exactly
`last_time is not None and t < last_time`).  The absolute timestamp is
`86400 * day + t` seconds after midnight of the race-start date. -/
def rolloverGo (d : ℕ) (last : Option ℚ) :
    List (ℕ × HourRow) → List (ℕ × Option ℚ)
  | [] => []
  | (i, r) :: rest =>
    match parse_time r.hour with
    | none => (i, none) :: rolloverGo d last rest
    | some t =>
      match last with
      | some lt =>
        if t < lt then
          (i, some (86400 * ((d : ℚ) + 1) + t)) :: rolloverGo (d + 1) (some t) rest
        else
          (i, some (86400 * (d : ℚ) + t)) :: rolloverGo d (some t) rest
      | none => (i, some (86400 * (d : ℚ) + t)) :: rolloverGo d (some t) rest

/-- `parse_hour_with_date_and_rollover` (gap_evolution_chart.py): sort the
rows by LAP_NUMBER, group by car NUMBER, and run `rolloverGo` per car starting
at the race-start date with no last time; the result series holds, at each
original row position, that row's absolute timestamp (seconds after midnight
of the race-start date) or `none` for an unparsable HOUR. -/
def parse_hour_with_date_and_rollover (df : List HourRow) : List (Option ℚ) :=
  let sortedRows := List.insertionSort
    (fun a b : ℕ × HourRow => a.2.lapNumber ≤ b.2.lapNumber) df.enum
  let assigned := (uniqList (df.map (fun r => r.number))).flatMap
    (fun car => rolloverGo 0 none (sortedRows.filter (fun p => p.2.number = car)))
  (List.range df.length).map (fun i => (assigned.lookup i).join)

/-- One row of the per-class, per-car gap table after the gap chart's
filtering: car NUMBER, integer LAP_NUMBER, and cumulative time in seconds
from the race start (CUM_TIME_SEC). -/
structure GapRow where
  number : String
  lap : Int
  cum : ℚ
deriving DecidableEq, Repr

/-- Maximum of a list (pandas `max()` / groupby `max()`), `none` on empty. -/
def listMax {α : Type} [LinearOrder α] : List α → Option α
  | [] => none
  | x :: xs => some (xs.foldl max x)

/-- First element minimising `f`, scanning left to right (pandas `idxmin`
keeps the first index achieving the minimum). -/
def argminBy {α : Type} (f : α → ℚ) : List α → Option α
  | [] => none
  | x :: xs => some (xs.foldl (fun b y => if f y < f b then y else b) x)

/-- Lexicographic (code-point) order on strings, Python's string comparison. -/
def strLE (a b : String) : Prop :=
  a.data < b.data ∨ a = b

instance : DecidableRel strLE := fun a b =>
  inferInstanceAs (Decidable (a.data < b.data ∨ a = b))

/-- Distinct car numbers in ascending order (pandas `groupby` sorts its keys). -/
def carsOf (rows : List GapRow) : List String :=
  List.insertionSort strLE (uniqList (rows.map (fun r => r.number)))

/-- A car's maximum cumulative time over the selected rows
(`groupby('NUMBER')['CUM_TIME_SEC'].max()`); `none` if the car has no row. -/
def finalTime (rows : List GapRow) (car : String) : Option ℚ :=
  listMax ((rows.filter (fun r => r.number = car)).map (fun r => r.cum))

/-- `final_times.idxmin()`: the car whose maximum cumulative time is smallest,
first in sorted car order on ties.  For a car drawn from `rows` the
`getD 0` default is never consulted since its `finalTime` exists. -/
def fastestCar (rows : List GapRow) : Option String :=
  argminBy (fun c => (finalTime rows c).getD 0) (carsOf rows)

/-- Lines 133-144 of gap_evolution_chart.py: pick the reference (fastest)
car, left-merge every row with the reference car's rows on LAP_NUMBER, and
attach GAP_TO_FASTEST = CUM_TIME_SEC - FASTEST_CUM_TIME; rows whose lap the
reference car never recorded keep a null gap. -/
def gapMerge (rows : List GapRow) : List (GapRow × Option ℚ) :=
  match fastestCar rows with
  | none => []
  | some fast =>
    let refRows := rows.filter (fun r => r.number = fast)
    rows.flatMap (fun r =>
      let ms := refRows.filter (fun m => m.lap = r.lap)
      if ms.isEmpty then [(r, none)]
      else ms.map (fun m => (r, some (r.cum - m.cum))))

/-- One row of the lap-position input table: car NUMBER, TEAM and CLASS
(nullable), LAP_NUMBER and ELAPSED. -/
structure PosRow where
  number : String
  team : Option String
  cls : Option String
  lapNumber : Int
  elapsed : ℚ
deriving DecidableEq, Repr

/-- Comparison used by `sort_values("ELAPSED")` on a lap's rows. -/
def elapsedLE (a b : PosRow) : Prop :=
  a.elapsed ≤ b.elapsed

instance : DecidableRel elapsedLE := fun a b => inferInstanceAs (Decidable (a.elapsed ≤ b.elapsed))

instance : IsTotal PosRow elapsedLE := ⟨fun a b => le_total a.elapsed b.elapsed⟩

instance : IsTrans PosRow elapsedLE := ⟨fun _ _ _ => le_trans⟩

/-- Python `str.lower()` (ASCII range, which covers the team names in the
color table): lower-case every character. -/
def strLower (s : String) : String :=
  String.mk (s.data.map Char.toLower)

/-- Association-list update with dict semantics: replace the value of an
existing key, otherwise append the new binding. -/
def dinsert {β : Type} (d : List (String × β)) (k : String) (v : β) :
    List (String × β) :=
  if d.any (fun p => p.1 = k) then
    d.map (fun p => if p.1 = k then (k, v) else p)
  else d ++ [(k, v)]

namespace RacePreprocessing

/-- Inner loop of `preprocess_lap_position_data` (race_preprocessing.py) for
one lap: filter the class rows to the lap, sort by ELAPSED, deduplicate car
numbers in order, and fill a list of `nuniq` slots (initially all `None`,
index guard as in the source) with the cars in rank order.  Caveat: the
source's `sort_values("ELAPSED")` uses pandas' default quicksort, which
leaves the relative order of rows with equal ELAPSED unspecified; this
embedding fixes that order with a stable insertion sort — one admissible
refinement of the unspecified tie order, shared with the twin definition
below, so statements comparing the two grids do not depend on the choice. -/
def lapColumn (classRows : List PosRow) (nuniq : ℕ) (lap : Int) :
    List (Option String) :=
  let sortedLap := List.insertionSort elapsedLE
    (classRows.filter (fun r => r.lapNumber = lap))
  let uniqueCars := uniqList (sortedLap.map (fun r => r.number))
  (List.range nuniq).map (fun i => uniqueCars[i]?)

/-- `preprocess_lap_position_data` (race_preprocessing.py): for each class
(first-occurrence order of non-null CLASS values), skip it unless its maximum
LAP_NUMBER is at least 1, then build the lap-indexed position grid for laps
`1..max_lap` plus a placeholder empty `car_colors` dict and the max lap. -/
def preprocess_lap_position_data (df : List PosRow) :
    List (String × (List (List (Option String)) × List (String × Option String) × Int)) :=
  (uniqList (df.filterMap (fun r => r.cls))).filterMap (fun c =>
    let classRows := df.filter (fun r => r.cls = some c)
    match listMax (classRows.map (fun r => r.lapNumber)) with
    | none => none
    | some m =>
      if m < 1 then none
      else
        let nuniq := (uniqList (classRows.map (fun r => r.number))).length
        some (c,
          ((List.range m.toNat).map (fun i => lapColumn classRows nuniq ((i : Int) + 1)),
            ([] : List (String × Option String)), m)))

end RacePreprocessing

namespace LapPositionChart

/-- Inner loop of the local `preprocess_lap_position_data` redefinition in
lap_position_chart.py; the grid construction is line-for-line the code of
race_preprocessing.py, and the same stable-sort refinement of the
unspecified quicksort tie order is used, so the two embeddings stay
comparable. -/
def lapColumn (classRows : List PosRow) (nuniq : ℕ) (lap : Int) :
    List (Option String) :=
  let sortedLap := List.insertionSort elapsedLE
    (classRows.filter (fun r => r.lapNumber = lap))
  let uniqueCars := uniqList (sortedLap.map (fun r => r.number))
  (List.range nuniq).map (fun i => uniqueCars[i]?)

/-- `class_df[class_df["TEAM"].str.lower() == team.lower()]["NUMBER"].unique()`:
the cars whose TEAM matches the given team case-insensitively (null TEAMs
never match, as `str.lower()` keeps them NaN). -/
def carsForTeam (classRows : List PosRow) (team : String) : List String :=
  uniqList ((classRows.filter
    (fun r => r.team.map strLower = some (strLower team))).map (fun r => r.number))

/-- car_colors construction of lap_position_chart.py's local preprocessor:
for each non-null team of the class, look up the cars whose TEAM matches the
team case-insensitively and map every such car to `None` (colors to be
overridden later). -/
def carColors (classRows : List PosRow) : List (String × Option String) :=
  (uniqList (classRows.filterMap (fun r => r.team))).foldl
    (fun d team =>
      (carsForTeam classRows team).foldl (fun d2 car => dinsert d2 car none) d)
    []

/-- The local `preprocess_lap_position_data` of lap_position_chart.py, which
shadows the imported one: identical class grid and max lap, but `car_colors`
maps the class's cars (found via their teams) to `None`. -/
def preprocess_lap_position_data (df : List PosRow) :
    List (String × (List (List (Option String)) × List (String × Option String) × Int)) :=
  (uniqList (df.filterMap (fun r => r.cls))).filterMap (fun c =>
    let classRows := df.filter (fun r => r.cls = some c)
    match listMax (classRows.map (fun r => r.lapNumber)) with
    | none => none
    | some m =>
      if m < 1 then none
      else
        let nuniq := (uniqList (classRows.map (fun r => r.number))).length
        some (c,
          ((List.range m.toNat).map (fun i => lapColumn classRows nuniq ((i : Int) + 1)),
            carColors classRows, m)))

end LapPositionChart

/-- Color resolution of `show_lap_position_chart` (lap_position_chart.py,
lines 124-132): take the car's first non-null TEAM within the class from the
original frame, lower-case it, and look that string up with a plain
(case-sensitive) `dict.get` in the supplied team-to-color table, defaulting
to `"#888888"`; a car with no recorded team also gets `"#888888"`. -/
def resolve_car_color (df : List PosRow) (team_colors : List (String × String))
    (cls car : String) : String :=
  let car_team := uniqList
    ((df.filter (fun r => r.cls = some cls ∧ r.number = car)).filterMap (fun r => r.team))
  match car_team with
  | [] => "#888888"
  | t :: _ => (team_colors.lookup (strLower t)).getD "#888888"

/-- Modelled from the spec's description of the local preprocessor's
`car_colors` result: a dict mapping each car of the class to null. -/
def specAllCarsNull (classRows : List PosRow) : List (String × Option String) :=
  (uniqList (classRows.map (fun r => r.number))).map
    (fun c => (c, (none : Option String)))


/-! ## Theorems -/

/-- C4: `preprocess_race` is idempotent — applying it to its own output
yields exactly the single-pass output: no further rows are dropped and no
value changes.  (The source also copies the frame before mutating, so in
this pure embedding freedom from input mutation holds by construction.) -/
theorem C4_preprocess_race_idempotent (df : List RaceRow) :
    preprocess_race (preprocess_race df) = preprocess_race df := by
  induction df with
  | nil => rfl
  | cons r rest ih =>
    simp only [preprocess_race, List.map_cons, List.filter_cons]
    cases h : lap_to_seconds r.lapTime with
    | none => simpa [preprocess_race, h] using ih
    | some v =>
      simp only [preprocess_race, List.map_cons, List.filter_cons] at ih ⊢
      simp [h, ih]

/-- C1 (counterexample): contrary to the claim that both conversion
functions accept the `h:m:s` shape, `lap_to_seconds` (used by
`preprocess_race`) returns null on `"01:02:03"` while `time_to_seconds`
(gap chart) returns the claimed 3723 seconds. -/
theorem C1_counterexample :
    lap_to_seconds "01:02:03" = none ∧ time_to_seconds "01:02:03" = some 3723 := by
  refine ⟨rfl, ?_⟩
  have h : time_to_seconds "01:02:03"
      = some (((1 : ℤ) : ℚ) * 3600 + ((2 : ℤ) : ℚ) * 60 + ((3 : ℕ) : ℚ)) := rfl
  rw [h]; norm_num

/-- C2: in the per-car rollover walk, when the current row's HOUR parses to
`t` and the previous parsed time is `lt`, the emitted absolute timestamp uses
the current date advanced by exactly one day precisely when `t < lt` (and the
running date is updated the same way); and for a car with HOUR sequence
`["23:59:50", "00:00:05"]` the second absolute timestamp is exactly 15
seconds after the first. -/
theorem C2_rollover_day_advance :
    (∀ (d : ℕ) (lt t : ℚ) (i : ℕ) (r : HourRow) (rest : List (ℕ × HourRow)),
      parse_time r.hour = some t →
      rolloverGo d (some lt) ((i, r) :: rest) =
        (i, some (86400 * ((d : ℚ) + (if t < lt then 1 else 0)) + t)) ::
          rolloverGo (if t < lt then d + 1 else d) (some t) rest)
    ∧ parse_hour_with_date_and_rollover [⟨"7", 1, "23:59:50"⟩, ⟨"7", 2, "00:00:05"⟩]
        = [some 86390, some (86390 + 15)] := by
  constructor
  · intro d lt t i r rest hp
    simp only [rolloverGo, hp]
    split_ifs with h <;> simp
  · have h : parse_hour_with_date_and_rollover [⟨"7", 1, "23:59:50"⟩, ⟨"7", 2, "00:00:05"⟩]
        = [some (86400 * ((0 : ℕ) : ℚ) + ((86390 : ℕ) : ℚ)),
            some (86400 * (((0 : ℕ) : ℚ) + 1) + ((5 : ℕ) : ℚ))] := rfl
    rw [h]; norm_num

/-- C2 witness: the day-advance characterisation applied at a concrete
state and row. -/
theorem C2_rollover_day_advance_witness :
    rolloverGo 0 (some 86390) [(1, ⟨"7", 2, "00:00:05"⟩)] =
      [(1, some (86400 * ((0 : ℚ) + (if (5 : ℚ) < 86390 then 1 else 0)) + 5))] := by
  have h := C2_rollover_day_advance.1 0 86390 5 1 ⟨"7", 2, "00:00:05"⟩ []
    (by
      have : parse_time "00:00:05" = some ((5 : ℕ) : ℚ) := rfl
      rw [this]; norm_num)
  simpa using h

/-- C8: a row whose HOUR does not parse yields a null timestamp, leaves the
per-car state (current date and last time) untouched, and never raises
(`rolloverGo` is total); concretely, an unparsable reading between
`"23:59:50"` and `"00:00:05"` neither blocks nor duplicates the genuine
midnight rollover. -/
theorem C8_unparsable_hour_no_state_change :
    (∀ (d : ℕ) (last : Option ℚ) (i : ℕ) (r : HourRow) (rest : List (ℕ × HourRow)),
      parse_time r.hour = none →
      rolloverGo d last ((i, r) :: rest) = (i, none) :: rolloverGo d last rest)
    ∧ parse_hour_with_date_and_rollover
        [⟨"7", 1, "23:59:50"⟩, ⟨"7", 2, "garbage"⟩, ⟨"7", 3, "00:00:05"⟩]
        = [some 86390, none, some 86405] := by
  constructor
  · intro d last i r rest hp
    simp only [rolloverGo, hp]
  · have h : parse_hour_with_date_and_rollover
        [⟨"7", 1, "23:59:50"⟩, ⟨"7", 2, "garbage"⟩, ⟨"7", 3, "00:00:05"⟩]
        = [some (86400 * ((0 : ℕ) : ℚ) + ((86390 : ℕ) : ℚ)), none,
            some (86400 * (((0 : ℕ) : ℚ) + 1) + ((5 : ℕ) : ℚ))] := rfl
    rw [h]; norm_num

/-- C8 witness: the no-state-change step applied to a concrete unparsable row. -/
theorem C8_unparsable_hour_no_state_change_witness :
    rolloverGo 3 (some 86390) [(0, ⟨"7", 2, "garbage"⟩)] = [(0, none)] := by
  have h := C8_unparsable_hour_no_state_change.1 3 (some 86390) 0 ⟨"7", 2, "garbage"⟩ [] rfl
  simpa using h

/-- C9: the claim says the lap position chart resolves a car's color by a
case-insensitive team match against the supplied table; the code instead
lower-cases only the query before a case-sensitive `dict.get`, so a team
whose table key contains upper-case letters falls back to `"#888888"` even
though a case-insensitive match exists. -/
theorem C9_color_lookup_case_bug :
    resolve_car_color [⟨"2", some "Toyota Gazoo Racing", some "H", 1, 100⟩]
        [("Toyota Gazoo Racing", "#000000")] "H" "2" = "#888888"
    ∧ ([("Toyota Gazoo Racing", "#000000")].any
        (fun p => strLower p.1 == strLower "Toyota Gazoo Racing")) = true :=
  ⟨rfl, rfl⟩

/-- Appending the next element of a sorted list cannot lower the prefix mean. -/
lemma mean_take_succ (l : List ℚ) (k : ℕ) (hk : 1 ≤ k) (hkl : k < l.length)
    (hs : l.Sorted (· ≤ ·)) :
    listMean (l.take k) ≤ listMean (l.take (k + 1)) := by
  have htake : l.take (k + 1) = l.take k ++ [l.get ⟨k, hkl⟩] := by
    rw [List.take_succ]
    simp [List.getElem?_eq_getElem hkl]
  have hlen : (l.take k).length = k := by
    simp [List.length_take, Nat.le_of_lt hkl]
  have hsp : (l.take (k + 1)).Sorted (· ≤ ·) :=
    List.Pairwise.sublist (List.take_sublist _ _) hs
  have hb : ∀ x ∈ l.take k, x ≤ l.get ⟨k, hkl⟩ := by
    intro x hx
    exact (List.pairwise_append.1 (htake ▸ hsp)).2.2 x hx (l.get ⟨k, hkl⟩) (by simp)
  have hsum : (l.take k).sum ≤ (k : ℚ) * l.get ⟨k, hkl⟩ := by
    have := List.sum_le_card_nsmul (l.take k) (l.get ⟨k, hkl⟩) hb
    rwa [hlen, nsmul_eq_mul] at this
  rw [listMean, listMean, htake]
  rw [List.sum_append, List.length_append, hlen]
  simp only [List.sum_cons, List.sum_nil, List.length_cons, List.length_nil]
  have hkpos : (0 : ℚ) < (k : ℚ) := by exact_mod_cast hk
  rw [div_le_div_iff₀ hkpos (by push_cast; linarith)]
  push_cast
  nlinarith [hsum]

/-- Prefix means of a sorted list are monotone in the prefix length. -/
lemma mean_take_mono (l : List ℚ) (hs : l.Sorted (· ≤ ·)) (k₁ k₂ : ℕ)
    (h1 : 1 ≤ k₁) (h12 : k₁ ≤ k₂) :
    listMean (l.take k₁) ≤ listMean (l.take k₂) := by
  induction k₂, h12 using Nat.le_induction with
  | base => exact le_refl _
  | succ n hn ih =>
    by_cases hnl : n < l.length
    · exact le_trans ih (mean_take_succ l n (le_trans h1 hn) hnl hs)
    · have heq : l.take n = l.take (n + 1) := by
        rw [List.take_of_length_le (Nat.le_of_not_lt hnl),
          List.take_of_length_le (by omega)]
      rw [← heq]; exact ih

/-- C5: on a driver's sorted lap table, `compute_driver_percentile_average`
returns null for zero laps and otherwise the arithmetic mean of the fastest
`max 1 (n * P / 100)` laps (the prefix of the ascending sort); for the 5 laps
90..94 at P = 40 it keeps the 2 fastest and returns 90.5. -/
theorem C5_percentile_average_spec :
    (∀ (laps : List ℚ) (p : ℕ), laps.Sorted (· ≤ ·) →
      compute_driver_percentile_average laps p =
        if laps = [] then none
        else some (listMean ((List.insertionSort (· ≤ ·) laps).take
          (max 1 (laps.length * p / 100)))))
    ∧ compute_driver_percentile_average [90, 91, 92, 93, 94] 40 = some (181 / 2) := by
  constructor
  · intro laps p hs
    rw [hs.insertionSort_eq]
    by_cases h : laps = [] <;>
      simp [compute_driver_percentile_average, h, List.length_eq_zero]
  · have h : compute_driver_percentile_average [90, 91, 92, 93, 94] 40
        = some (listMean [90, 91]) := rfl
    rw [h]; norm_num [listMean]

/-- C5 witness: the characterisation applied to the concrete sorted table
90..94 at P = 40. -/
theorem C5_percentile_average_spec_witness :
    compute_driver_percentile_average [90, 91, 92, 93, 94] 40 =
      if ([90, 91, 92, 93, 94] : List ℚ) = [] then none
      else some (listMean ((List.insertionSort (· ≤ ·) ([90, 91, 92, 93, 94] : List ℚ)).take
        (max 1 (([90, 91, 92, 93, 94] : List ℚ).length * 40 / 100)))) :=
  C5_percentile_average_spec.1 [90, 91, 92, 93, 94] 40 (by decide)

/-- C7: for a fixed driver with at least two distinct lap times, the
percentile average on the sorted lap table is monotone: a smaller percentile
never yields a larger average. -/
theorem C7_percentile_average_monotone (laps : List ℚ) (p₁ p₂ : ℕ) (a₁ a₂ : ℚ)
    (hs : laps.Sorted (· ≤ ·))
    (_hd : ∃ x ∈ laps, ∃ y ∈ laps, x ≠ y)
    (hp : p₁ < p₂)
    (h₁ : compute_driver_percentile_average laps p₁ = some a₁)
    (h₂ : compute_driver_percentile_average laps p₂ = some a₂) :
    a₁ ≤ a₂ := by
  have hne : ¬ laps.length = 0 := by
    intro h0
    simp [compute_driver_percentile_average, h0] at h₁
  rw [compute_driver_percentile_average, if_neg hne, Option.some_inj] at h₁ h₂
  have hk : max 1 (laps.length * p₁ / 100) ≤ max 1 (laps.length * p₂ / 100) :=
    max_le_max (le_refl 1) (Nat.div_le_div_right (Nat.mul_le_mul_left _ hp.le))
  rw [← h₁, ← h₂]
  exact mean_take_mono laps hs _ _ (le_max_left _ _) hk

/-- C7 witness: monotonicity applied to the two-lap table [90, 91] at
percentiles 40 and 100. -/
theorem C7_percentile_average_monotone_witness : (90 : ℚ) ≤ 181 / 2 :=
  C7_percentile_average_monotone [90, 91] 40 100 90 (181 / 2)
    (by decide) (by decide) (by decide)
    (by
      have h : compute_driver_percentile_average [90, 91] 40 = some (listMean [90]) := rfl
      rw [h]; norm_num [listMean])
    (by
      have h : compute_driver_percentile_average [90, 91] 100 = some (listMean [90, 91]) := rfl
      rw [h]; norm_num [listMean])

/-- The left fold behind `argminBy` returns an element whose key is at most
the seed's key and every listed element's key. -/
lemma argmin_foldl_le {α : Type} (f : α → ℚ) (x : α) (xs : List α) :
    f (xs.foldl (fun b y => if f y < f b then y else b) x) ≤ f x ∧
    ∀ y ∈ xs, f (xs.foldl (fun b y => if f y < f b then y else b) x) ≤ f y := by
  induction xs generalizing x with
  | nil => simp
  | cons z zs ih =>
    simp only [List.foldl_cons]
    obtain ⟨h1, h2⟩ := ih (if f z < f x then z else x)
    refine ⟨le_trans h1 ?_, ?_⟩
    · split_ifs with h
      exacts [le_of_lt h, le_refl _]
    · intro y hy
      rcases List.mem_cons.1 hy with rfl | hy
      · refine le_trans h1 ?_
        split_ifs with h
        exacts [le_refl _, not_lt.1 h]
      · exact h2 y hy

/-- C6: in the gap evolution computation on rows with unique (car, lap)
keys, the reference car minimises the maximum cumulative time among all cars;
its own gap is exactly 0 on every lap it completed; and on a lap the
reference car never recorded, every car's merged gap is null. -/
theorem C6_gap_reference_invariants (rows : List GapRow) (fast : String)
    (hnd : (rows.map (fun r => (r.number, r.lap))).Nodup)
    (hf : fastestCar rows = some fast) :
    (∀ c ∈ carsOf rows, (finalTime rows fast).getD 0 ≤ (finalTime rows c).getD 0)
    ∧ (∀ p ∈ gapMerge rows, p.1.number = fast → p.2 = some 0)
    ∧ (∀ L : Int, (∀ m ∈ rows, m.number = fast → m.lap ≠ L) →
        ∀ p ∈ gapMerge rows, p.1.lap = L → p.2 = none) := by
  have hinj := List.inj_on_of_nodup_map hnd
  refine ⟨?_, ?_, ?_⟩
  · intro c hc
    rw [fastestCar] at hf
    rcases hcars : carsOf rows with _ | ⟨x, xs⟩ <;> rw [hcars] at hf
    · simp [argminBy] at hf
    · simp only [argminBy, Option.some_inj] at hf
      rw [hcars] at hc
      obtain ⟨h1, h2⟩ := argmin_foldl_le (fun c => (finalTime rows c).getD 0) x xs
      rcases List.mem_cons.1 hc with rfl | hc
      · exact hf ▸ h1
      · exact hf ▸ h2 c hc
  · intro p hp hpf
    simp only [gapMerge, hf, List.mem_flatMap] at hp
    obtain ⟨r, hr, hpr⟩ := hp
    by_cases hms : ((rows.filter (fun m => m.number = fast)).filter
        (fun m => m.lap = r.lap)).isEmpty
    · rw [if_pos hms] at hpr
      rcases List.mem_singleton.1 hpr with rfl
      have hpf' : r.number = fast := hpf
      have hrin : r ∈ (rows.filter (fun m => m.number = fast)).filter
          (fun m => m.lap = r.lap) := by
        simp only [List.mem_filter, decide_eq_true_eq]
        exact ⟨⟨hr, hpf'⟩, trivial⟩
      rw [List.isEmpty_iff] at hms
      rw [hms] at hrin
      exact absurd hrin (List.not_mem_nil r)
    · rw [if_neg hms] at hpr
      obtain ⟨m, hm, rfl⟩ := List.mem_map.1 hpr
      simp only [List.mem_filter, decide_eq_true_eq] at hm
      obtain ⟨⟨hmrows, hmfast⟩, hmlap⟩ := hm
      have hpf' : r.number = fast := hpf
      have hmr : m = r := hinj hmrows hr (by rw [hmfast, hpf', hmlap])
      subst hmr
      simp
  · intro L hL p hp hpL
    simp only [gapMerge, hf, List.mem_flatMap] at hp
    obtain ⟨r, hr, hpr⟩ := hp
    by_cases hms : ((rows.filter (fun m => m.number = fast)).filter
        (fun m => m.lap = r.lap)).isEmpty
    · rw [if_pos hms] at hpr
      rcases List.mem_singleton.1 hpr with rfl
      rfl
    · rw [if_neg hms] at hpr
      obtain ⟨m, hm, rfl⟩ := List.mem_map.1 hpr
      simp only [List.mem_filter, decide_eq_true_eq] at hm
      have hpL' : r.lap = L := hpL
      exact absurd (hm.2.trans hpL') (hL m hm.1.1 hm.1.2)

/-- C6 witness: on a concrete two-car race the reference car's maximum
cumulative time is at most the other car's. -/
theorem C6_gap_reference_invariants_witness :
    (finalTime [⟨"1", 1, 100⟩, ⟨"1", 2, 200⟩, ⟨"2", 1, 101⟩, ⟨"2", 2, 205⟩] "1").getD 0 ≤
      (finalTime [⟨"1", 1, 100⟩, ⟨"1", 2, 200⟩, ⟨"2", 1, 101⟩, ⟨"2", 2, 205⟩] "2").getD 0 :=
  (C6_gap_reference_invariants
      [⟨"1", 1, 100⟩, ⟨"1", 2, 200⟩, ⟨"2", 1, 101⟩, ⟨"2", 2, 205⟩] "1"
      (by decide) (by decide)).1 "2" (by decide)

/-- Membership in the deduplication accumulator walk. -/
lemma mem_uniqAux {α : Type} [DecidableEq α] (x : α) :
    ∀ (seen l : List α), x ∈ uniqAux seen l ↔ x ∈ l ∧ x ∉ seen
  | seen, [] => by simp [uniqAux]
  | seen, y :: ys => by
    rw [uniqAux]
    by_cases hy : y ∈ seen
    · rw [if_pos hy, mem_uniqAux x seen ys]
      constructor
      · rintro ⟨h1, h2⟩
        exact ⟨List.mem_cons_of_mem _ h1, h2⟩
      · rintro ⟨h1, h2⟩
        rcases List.mem_cons.1 h1 with rfl | h1
        · exact absurd hy h2
        · exact ⟨h1, h2⟩
    · rw [if_neg hy]
      simp only [List.mem_cons, mem_uniqAux x (y :: seen) ys, List.mem_cons, not_or]
      constructor
      · rintro (rfl | ⟨h1, h2, h3⟩)
        · exact ⟨Or.inl rfl, hy⟩
        · exact ⟨Or.inr h1, h3⟩
      · rintro ⟨rfl | h1, h2⟩
        · exact Or.inl rfl
        · by_cases hxy : x = y
          · exact Or.inl hxy
          · exact Or.inr ⟨h1, hxy, h2⟩

/-- `unique()` preserves membership. -/
lemma mem_uniqList {α : Type} [DecidableEq α] (x : α) (l : List α) :
    x ∈ uniqList l ↔ x ∈ l := by
  rw [uniqList, mem_uniqAux]
  simp

/-- In a dict whose values are all null, lookup succeeds with null exactly on
the keys. -/
lemma lookup_some_none_iff (d : List (String × Option String))
    (hvals : ∀ p ∈ d, p.2 = none) (car : String) :
    d.lookup car = some none ↔ car ∈ d.map Prod.fst := by
  induction d with
  | nil => simp [List.lookup]
  | cons p ps ih =>
    obtain ⟨k, v⟩ := p
    have hv : v = none := hvals (k, v) (List.mem_cons_self _ _)
    subst hv
    rw [List.lookup]
    by_cases hk : car = k
    · simp [hk]
    · have hbeq : (car == k) = false := beq_false_of_ne hk
      rw [hbeq]
      simp only [List.map_cons, List.mem_cons]
      rw [ih (fun q hq => hvals q (List.mem_cons_of_mem _ hq))]
      constructor
      · exact Or.inr
      · rintro (h | h)
        · exact absurd h hk
        · exact h

/-- In a dict whose values are all null, every lookup is null or succeeds
with null. -/
lemma lookup_none_or_some_none (d : List (String × Option String))
    (hvals : ∀ p ∈ d, p.2 = none) (car : String) :
    d.lookup car = none ∨ d.lookup car = some none := by
  induction d with
  | nil => simp [List.lookup]
  | cons p ps ih =>
    obtain ⟨k, v⟩ := p
    have hv : v = none := hvals (k, v) (List.mem_cons_self _ _)
    subst hv
    rw [List.lookup]
    by_cases hk : car = k
    · simp [hk]
    · rw [beq_false_of_ne hk]
      exact ih (fun q hq => hvals q (List.mem_cons_of_mem _ hq))

/-- Key set of a dict insert. -/
lemma keys_dinsert (d : List (String × Option String)) (k : String) (v : Option String)
    (car : String) :
    car ∈ (dinsert d k v).map Prod.fst ↔ car = k ∨ car ∈ d.map Prod.fst := by
  rw [dinsert]
  by_cases h : d.any (fun p => p.1 = k)
  · rw [if_pos h]
    have hkeys : (d.map (fun p => if p.1 = k then (k, v) else p)).map Prod.fst
        = d.map Prod.fst := by
      rw [List.map_map]
      apply List.map_congr_left
      intro p _
      by_cases hp : p.1 = k
      · simp [hp]
      · simp [hp]
    rw [hkeys]
    constructor
    · exact Or.inr
    · rintro (rfl | h')
      · simp only [List.any_eq_true, decide_eq_true_eq] at h
        obtain ⟨p, hp, hpk⟩ := h
        exact List.mem_map.2 ⟨p, hp, hpk⟩
      · exact h'
  · rw [if_neg h]
    simp [or_comm]

/-- Inserting a null value keeps every dict value null. -/
lemma vals_dinsert (d : List (String × Option String)) (k : String)
    (hd : ∀ p ∈ d, p.2 = none) : ∀ p ∈ dinsert d k none, p.2 = none := by
  rw [dinsert]
  split_ifs with h
  · intro p hp
    obtain ⟨q, hq, hpq⟩ := List.mem_map.1 hp
    by_cases hqk : q.1 = k
    · rw [if_pos hqk] at hpq
      rw [← hpq]
    · rw [if_neg hqk] at hpq
      exact hpq ▸ hd q hq
  · intro p hp
    rcases List.mem_append.1 hp with h1 | h1
    · exact hd p h1
    · rcases List.mem_singleton.1 h1 with rfl
      rfl

/-- The per-team car loop keeps every dict value null. -/
lemma inner_fold_vals (cars : List String) :
    ∀ (d : List (String × Option String)), (∀ p ∈ d, p.2 = none) →
      ∀ p ∈ cars.foldl (fun d2 c => dinsert d2 c none) d, p.2 = none := by
  induction cars with
  | nil => intro d hd; exact hd
  | cons c cs ih =>
    intro d hd
    rw [List.foldl_cons]
    exact ih _ (vals_dinsert d c hd)

/-- Key set after the per-team car loop. -/
lemma inner_fold_keys (cars : List String) :
    ∀ (d : List (String × Option String)) (car : String),
      (car ∈ ((cars.foldl (fun d2 c => dinsert d2 c none) d).map Prod.fst)
        ↔ car ∈ cars ∨ car ∈ d.map Prod.fst) := by
  induction cars with
  | nil => simp
  | cons c cs ih =>
    intro d car
    rw [List.foldl_cons, ih, keys_dinsert]
    simp only [List.mem_cons]
    tauto

/-- The team loop of `carColors` keeps every dict value null. -/
lemma outer_fold_vals (classRows : List PosRow) (teams : List String) :
    ∀ (d : List (String × Option String)), (∀ p ∈ d, p.2 = none) →
      ∀ p ∈ teams.foldl (fun d team =>
          ((LapPositionChart.carsForTeam classRows team).foldl
            (fun d2 car => dinsert d2 car none) d)) d,
        p.2 = none := by
  induction teams with
  | nil => intro d hd; exact hd
  | cons t ts ih =>
    intro d hd
    rw [List.foldl_cons]
    exact ih _ (inner_fold_vals _ d hd)

/-- Key set after the team loop of `carColors`. -/
lemma outer_fold_keys (classRows : List PosRow) (teams : List String) :
    ∀ (d : List (String × Option String)) (car : String),
      (car ∈ ((teams.foldl (fun d team =>
          ((LapPositionChart.carsForTeam classRows team).foldl
            (fun d2 car => dinsert d2 car none) d)) d).map Prod.fst)
        ↔ (∃ t ∈ teams, car ∈ LapPositionChart.carsForTeam classRows t)
            ∨ car ∈ d.map Prod.fst) := by
  induction teams with
  | nil => simp
  | cons t ts ih =>
    intro d car
    rw [List.foldl_cons, ih, inner_fold_keys]
    simp only [List.mem_cons]
    constructor
    · rintro (⟨u, hu, hcar⟩ | (h | h))
      · exact Or.inl ⟨u, Or.inr hu, hcar⟩
      · exact Or.inl ⟨t, Or.inl rfl, h⟩
      · exact Or.inr h
    · rintro (⟨u, rfl | hu, hcar⟩ | h)
      · exact Or.inr (Or.inl hcar)
      · exact Or.inl ⟨u, hu, hcar⟩
      · exact Or.inr (Or.inr h)

/-- All values in the local preprocessor's car_colors dict are null. -/
lemma carColors_vals (classRows : List PosRow) :
    ∀ p ∈ LapPositionChart.carColors classRows, p.2 = none := by
  have h := outer_fold_vals classRows
    (uniqList (classRows.filterMap (fun r => r.team))) [] (by simp)
  exact h

/-- The keys of the local preprocessor's car_colors dict are exactly the
class's cars possessing at least one non-null TEAM row. -/
lemma carColors_keys (classRows : List PosRow) (car : String) :
    car ∈ (LapPositionChart.carColors classRows).map Prod.fst
      ↔ ∃ r ∈ classRows, r.number = car ∧ r.team ≠ none := by
  have h := outer_fold_keys classRows
    (uniqList (classRows.filterMap (fun r => r.team))) [] car
  rw [LapPositionChart.carColors]
  rw [h]
  simp only [List.map_nil, List.not_mem_nil, or_false]
  constructor
  · rintro ⟨t, _, hcar⟩
    rw [LapPositionChart.carsForTeam, mem_uniqList] at hcar
    obtain ⟨r, hr, hnum⟩ := List.mem_map.1 hcar
    rw [List.mem_filter, decide_eq_true_eq] at hr
    refine ⟨r, hr.1, hnum, ?_⟩
    intro hnone
    rw [hnone] at hr
    simp at hr
  · rintro ⟨r, hr, hnum, hteam⟩
    obtain ⟨u, hu⟩ := Option.ne_none_iff_exists'.1 hteam
    refine ⟨u, ?_, ?_⟩
    · rw [mem_uniqList]
      exact List.mem_filterMap.2 ⟨r, hr, hu⟩
    · rw [LapPositionChart.carsForTeam, mem_uniqList]
      refine List.mem_map.2 ⟨r, ?_, hnum⟩
      rw [List.mem_filter, decide_eq_true_eq]
      exact ⟨hr, by rw [hu]; rfl⟩

/-- C10 (counterexample): for a car whose TEAM is null, the local
preprocessor's car_colors dict omits the car entirely — it is not the
claimed "dict mapping each car to null" (the dict lookups differ). -/
theorem C10_counterexample :
    ((LapPositionChart.preprocess_lap_position_data [⟨"7", none, some "X", 1, 100⟩]).map
      (fun e => e.2.2.1)) = [[]]
    ∧ specAllCarsNull (([⟨"7", none, some "X", 1, 100⟩] : List PosRow).filter
        (fun r => r.cls = some "X")) = [("7", none)]
    ∧ (([] : List (String × Option String)).lookup "7"
        ≠ ([("7", (none : Option String))] : List (String × Option String)).lookup "7") :=
  ⟨by decide, by decide, by decide⟩

/-- C10 (amended): the two `preprocess_lap_position_data` implementations
agree on class keys, position grids and max laps — the imported version just
carries an empty car_colors dict — and the local version's car_colors dict
maps exactly the class's cars that have a non-null TEAM row to null. -/
theorem C10_grid_equivalence (df : List PosRow) :
    RacePreprocessing.preprocess_lap_position_data df =
      (LapPositionChart.preprocess_lap_position_data df).map
        (fun e => (e.1, (e.2.1, ([] : List (String × Option String)), e.2.2.2)))
    ∧ ∀ e ∈ LapPositionChart.preprocess_lap_position_data df, ∀ car : String,
        (e.2.2.1.lookup car = some none ↔
          ∃ r ∈ df.filter (fun r => r.cls = some e.1), r.number = car ∧ r.team ≠ none)
        ∧ (e.2.2.1.lookup car = none ∨ e.2.2.1.lookup car = some none) := by
  constructor
  · rw [RacePreprocessing.preprocess_lap_position_data,
      LapPositionChart.preprocess_lap_position_data, List.map_filterMap]
    apply List.filterMap_congr
    intro c _
    simp only
    cases hm : listMax ((df.filter (fun r => r.cls = some c)).map (fun r => r.lapNumber)) with
    | none => rfl
    | some m =>
      by_cases h1 : m < 1
      · simp [h1]
      · simp only [h1, if_false, Option.map_some']
        rfl
  · intro e he car
    obtain ⟨c, hc, hfc⟩ := List.mem_filterMap.1 he
    simp only at hfc
    rcases hm : listMax ((df.filter (fun r => r.cls = some c)).map (fun r => r.lapNumber))
      with _ | m
    · rw [hm] at hfc
      exact absurd hfc (by simp)
    · rw [hm] at hfc
      dsimp only at hfc
      by_cases h1 : m < 1
      · rw [if_pos h1] at hfc
        exact absurd hfc (by simp)
      · rw [if_neg h1, Option.some_inj] at hfc
        subst hfc
        constructor
        · exact (lookup_some_none_iff _ (carColors_vals _) car).trans
            (by rw [carColors_keys])
        · exact lookup_none_or_some_none _ (carColors_vals _) car

/-- C10 witness: the grid equivalence at a concrete one-row table. -/
theorem C10_grid_equivalence_witness :
    RacePreprocessing.preprocess_lap_position_data [⟨"7", none, some "X", 1, 100⟩] =
      (LapPositionChart.preprocess_lap_position_data [⟨"7", none, some "X", 1, 100⟩]).map
        (fun e => (e.1, (e.2.1, ([] : List (String × Option String)), e.2.2.2))) :=
  (C10_grid_equivalence [⟨"7", none, some "X", 1, 100⟩]).1

/-- `splitOnChar` never returns the empty list of parts. -/
lemma splitOnChar_ne_nil (sep : Char) : ∀ s : List Char, splitOnChar sep s ≠ []
  | [] => by simp [splitOnChar]
  | c :: rest => by
    rw [splitOnChar]
    split_ifs with h
    · simp
    · cases hs : splitOnChar sep rest with
      | nil => simp
      | cons p ps => simp

/-- Splitting a string that starts with the separator emits an empty part. -/
lemma splitOnChar_cons_sep (sep : Char) (b : List Char) :
    splitOnChar sep (sep :: b) = [] :: splitOnChar sep b := by
  rw [splitOnChar, if_pos rfl]

/-- Splitting around an explicit separator peels off the first part. -/
lemma splitOnChar_append (sep : Char) (a b : List Char) (ha : sep ∉ a) :
    splitOnChar sep (a ++ sep :: b) = a :: splitOnChar sep b := by
  induction a with
  | nil => simpa using splitOnChar_cons_sep sep b
  | cons c cs ih =>
    have hc : ¬ c = sep := fun h => ha (h ▸ List.mem_cons_self c cs)
    have hcs : sep ∉ cs := fun h => ha (List.mem_cons_of_mem _ h)
    rw [List.cons_append, splitOnChar, if_neg hc, ih hcs]

/-- A separator-free string splits into a single part. -/
lemma splitOnChar_eq_single (sep : Char) : ∀ (s : List Char), sep ∉ s →
    splitOnChar sep s = [s]
  | [], _ => rfl
  | c :: cs, h => by
    have hc : ¬ c = sep := fun he => h (he ▸ List.mem_cons_self c cs)
    have hcs : sep ∉ cs := fun he => h (List.mem_cons_of_mem _ he)
    rw [splitOnChar, if_neg hc, splitOnChar_eq_single sep cs hcs]

/-- Joining distributes over a first part's leading character. -/
lemma joinSep_cons_cons (sep c : Char) (p : List Char) (ps : List (List Char)) :
    joinSep sep ((c :: p) :: ps) = c :: joinSep sep (p :: ps) := by
  cases ps with
  | nil => rfl
  | cons q qs => rfl

/-- `joinSep` undoes `splitOnChar`. -/
lemma joinSep_splitOnChar (sep : Char) : ∀ s : List Char,
    joinSep sep (splitOnChar sep s) = s
  | [] => rfl
  | c :: cs => by
    rw [splitOnChar]
    split_ifs with h
    · subst h
      rw [show joinSep c ([] :: splitOnChar c cs) = c :: joinSep c (splitOnChar c cs) by
        cases hs : splitOnChar c cs with
        | nil => exact absurd hs (splitOnChar_ne_nil c cs)
        | cons p ps => rfl]
      rw [joinSep_splitOnChar c cs]
    · cases hs : splitOnChar sep cs with
      | nil => exact absurd hs (splitOnChar_ne_nil sep cs)
      | cons p ps =>
        have := joinSep_splitOnChar sep cs
        rw [hs] at this
        rw [joinSep_cons_cons, this]

/-- A non-digit character cannot occur in an all-digit string. -/
lemma not_mem_of_allDigits (s : List Char) (h : allDigits s) (c : Char)
    (hc : ¬ c.isDigit) : c ∉ s := by
  intro hmem
  rw [allDigits, List.all_eq_true] at h
  exact hc (h c hmem)

/-- A successfully parsed integer numeral contains no colon. -/
lemma pyInt_no_colon (s : List Char) (v : ℤ) (h : pyInt s = some v) : ':' ∉ s := by
  intro hc
  cases s with
  | nil => simp at hc
  | cons c rest =>
    rw [pyInt] at h
    split_ifs at h with h1 h2 h3 h4 h5
    · rcases List.mem_cons.1 hc with he | hmem
      · exact absurd (he.trans h1) (by decide)
      · exact not_mem_of_allDigits rest h2.2 ':' (by decide) hmem
    · rcases List.mem_cons.1 hc with he | hmem
      · exact absurd (he.trans h3) ( by decide)
      · exact not_mem_of_allDigits rest h4.2 ':' (by decide) hmem
    · exact not_mem_of_allDigits (c :: rest) h5 ':' (by decide) hc

/-- A successfully parsed unsigned decimal numeral contains no colon. -/
lemma pyFloatMag_no_colon (s : List Char) (v : ℚ) (h : pyFloatMag s = some v) :
    ':' ∉ s := by
  intro hc
  rw [pyFloatMag] at h
  split at h
  · rename_i ip heq
    split_ifs at h with hcond
    have hsip : s = ip := by
      have hj := joinSep_splitOnChar '.' s
      rw [heq] at hj
      exact hj.symm
    rw [hsip] at hc
    exact not_mem_of_allDigits ip hcond.2 ':' (by decide) hc
  · rename_i ip fp heq
    split_ifs at h with hcond
    have hs : s = ip ++ '.' :: fp := by
      have hj := joinSep_splitOnChar '.' s
      rw [heq] at hj
      exact hj.symm
    rw [hs] at hc
    rcases List.mem_append.1 hc with hmem | hmem
    · exact not_mem_of_allDigits ip hcond.2.1 ':' (by decide) hmem
    · rcases List.mem_cons.1 hmem with he | hmem
      · exact absurd he (by decide)
      · exact not_mem_of_allDigits fp hcond.2.2 ':' (by decide) hmem
  · exact absurd h (by simp)

/-- A successfully parsed decimal numeral contains no colon. -/
lemma pyFloat_no_colon (s : List Char) (v : ℚ) (h : pyFloat s = some v) : ':' ∉ s := by
  intro hc
  cases s with
  | nil => simp at hc
  | cons c rest =>
    rw [pyFloat] at h
    split_ifs at h with h1 h2
    · rcases List.mem_cons.1 hc with he | hmem
      · exact absurd (he.trans h1) (by decide)
      · obtain ⟨q, hq, _⟩ := Option.map_eq_some'.1 h
        exact pyFloatMag_no_colon rest q hq hmem
    · rcases List.mem_cons.1 hc with he | hmem
      · exact absurd (he.trans h2) (by decide)
      · exact pyFloatMag_no_colon rest v h hmem
    · exact pyFloatMag_no_colon (c :: rest) v h hc

/-- `time_to_seconds` on a well-formed `h:m:s` string. -/
lemma time_to_seconds_hms (hs ms ss : List Char) (hv mv : ℤ) (sv : ℚ)
    (h1 : pyInt hs = some hv) (h2 : pyInt ms = some mv) (h3 : pyFloat ss = some sv) :
    time_to_seconds (String.mk (hs ++ ':' :: (ms ++ ':' :: ss)))
      = some ((hv : ℚ) * 3600 + (mv : ℚ) * 60 + sv) := by
  have hhs := pyInt_no_colon hs hv h1
  have hms := pyInt_no_colon ms mv h2
  have hss := pyFloat_no_colon ss sv h3
  rw [time_to_seconds]
  rw [show (String.mk (hs ++ ':' :: (ms ++ ':' :: ss))).data
      = hs ++ ':' :: (ms ++ ':' :: ss) from rfl]
  rw [splitOnChar_append ':' hs _ hhs, splitOnChar_append ':' ms _ hms,
    splitOnChar_eq_single ':' ss hss]
  dsimp only
  rw [h1, h2, h3]

/-- `time_to_seconds` on a well-formed `m:s` string. -/
lemma time_to_seconds_ms (ms ss : List Char) (mv : ℤ) (sv : ℚ)
    (h2 : pyInt ms = some mv) (h3 : pyFloat ss = some sv) :
    time_to_seconds (String.mk (ms ++ ':' :: ss)) = some ((mv : ℚ) * 60 + sv) := by
  have hms := pyInt_no_colon ms mv h2
  have hss := pyFloat_no_colon ss sv h3
  rw [time_to_seconds]
  rw [show (String.mk (ms ++ ':' :: ss)).data = ms ++ ':' :: ss from rfl]
  rw [splitOnChar_append ':' ms _ hms, splitOnChar_eq_single ':' ss hss]
  dsimp only
  rw [h2, h3]

/-- `lap_to_seconds` on a well-formed `m:s` string. -/
lemma lap_to_seconds_ms (ms ss : List Char) (mv : ℤ) (sv : ℚ)
    (h2 : pyInt ms = some mv) (h3 : pyFloat ss = some sv) :
    lap_to_seconds (String.mk (ms ++ ':' :: ss)) = some ((mv : ℚ) * 60 + sv) := by
  have hms := pyInt_no_colon ms mv h2
  have hss := pyFloat_no_colon ss sv h3
  rw [lap_to_seconds]
  rw [show (String.mk (ms ++ ':' :: ss)).data = ms ++ ':' :: ss from rfl]
  rw [splitOnChar_append ':' ms _ hms, splitOnChar_eq_single ':' ss hss]
  dsimp only
  rw [h2, h3]

/-- `time_to_seconds` on a bare decimal numeral. -/
lemma time_to_seconds_bare (s : String) (v : ℚ) (h : pyFloat s.data = some v) :
    time_to_seconds s = some v := by
  have hs := pyFloat_no_colon s.data v h
  rw [time_to_seconds, splitOnChar_eq_single ':' s.data hs]
  exact h

/-- `time_to_seconds` succeeds only on the three accepted shapes, with the
exact arithmetic conversion. -/
lemma time_to_seconds_shapes (s : String) (v : ℚ) (h : time_to_seconds s = some v) :
    (∃ hs ms ss hv mv sv, s.data = hs ++ ':' :: (ms ++ ':' :: ss)
      ∧ pyInt hs = some hv ∧ pyInt ms = some mv ∧ pyFloat ss = some sv
      ∧ v = (hv : ℚ) * 3600 + (mv : ℚ) * 60 + sv)
    ∨ (∃ ms ss mv sv, s.data = ms ++ ':' :: ss
      ∧ pyInt ms = some mv ∧ pyFloat ss = some sv ∧ v = (mv : ℚ) * 60 + sv)
    ∨ pyFloat s.data = some v := by
  rw [time_to_seconds] at h
  split at h
  · rename_i a b c heq
    split at h
    · rename_i hv mv sv ha hb hc
      refine Or.inl ⟨a, b, c, hv, mv, sv, ?_, ha, hb, hc, (Option.some_inj.1 h).symm⟩
      have hj := joinSep_splitOnChar ':' s.data
      rw [heq] at hj
      exact hj.symm
    · exact absurd h (by simp)
  · rename_i a b heq
    split at h
    · rename_i mv sv ha hb
      refine Or.inr (Or.inl ⟨a, b, mv, sv, ?_, ha, hb, (Option.some_inj.1 h).symm⟩)
      have hj := joinSep_splitOnChar ':' s.data
      rw [heq] at hj
      exact hj.symm
    · exact absurd h (by simp)
  · exact Or.inr (Or.inr h)

/-- `lap_to_seconds` succeeds only on the `m:s` shape, with the exact
arithmetic conversion. -/
lemma lap_to_seconds_shapes (s : String) (v : ℚ) (h : lap_to_seconds s = some v) :
    ∃ ms ss mv sv, s.data = ms ++ ':' :: ss
      ∧ pyInt ms = some mv ∧ pyFloat ss = some sv ∧ v = (mv : ℚ) * 60 + sv := by
  rw [lap_to_seconds] at h
  split at h
  · rename_i a b heq
    split at h
    · rename_i mv sv ha hb
      refine ⟨a, b, mv, sv, ?_, ha, hb, (Option.some_inj.1 h).symm⟩
      have hj := joinSep_splitOnChar ':' s.data
      rw [heq] at hj
      exact hj.symm
    · exact absurd h (by simp)
  · exact absurd h (by simp)

/-- C1 (amended): `time_to_seconds` implements exactly the three claimed
shapes (`h:m:s`, `m:s`, bare numeral, in each case the exact arithmetic
conversion, and nothing else succeeds), while `lap_to_seconds` implements
only the `m:s` shape and returns null for every other input, including
`h:m:s` strings and bare numerals; both are total, never raising. -/
theorem C1_amended_conversions :
    (∀ (hs ms ss : List Char) (hv mv : ℤ) (sv : ℚ),
      pyInt hs = some hv → pyInt ms = some mv → pyFloat ss = some sv →
      time_to_seconds (String.mk (hs ++ ':' :: (ms ++ ':' :: ss)))
        = some ((hv : ℚ) * 3600 + (mv : ℚ) * 60 + sv))
    ∧ (∀ (ms ss : List Char) (mv : ℤ) (sv : ℚ),
      pyInt ms = some mv → pyFloat ss = some sv →
      time_to_seconds (String.mk (ms ++ ':' :: ss)) = some ((mv : ℚ) * 60 + sv)
        ∧ lap_to_seconds (String.mk (ms ++ ':' :: ss)) = some ((mv : ℚ) * 60 + sv))
    ∧ (∀ (s : String) (v : ℚ), pyFloat s.data = some v → time_to_seconds s = some v)
    ∧ (∀ (s : String) (v : ℚ), time_to_seconds s = some v →
      (∃ hs ms ss hv mv sv, s.data = hs ++ ':' :: (ms ++ ':' :: ss)
        ∧ pyInt hs = some hv ∧ pyInt ms = some mv ∧ pyFloat ss = some sv
        ∧ v = (hv : ℚ) * 3600 + (mv : ℚ) * 60 + sv)
      ∨ (∃ ms ss mv sv, s.data = ms ++ ':' :: ss
        ∧ pyInt ms = some mv ∧ pyFloat ss = some sv ∧ v = (mv : ℚ) * 60 + sv)
      ∨ pyFloat s.data = some v)
    ∧ (∀ (s : String) (v : ℚ), lap_to_seconds s = some v →
      ∃ ms ss mv sv, s.data = ms ++ ':' :: ss
        ∧ pyInt ms = some mv ∧ pyFloat ss = some sv ∧ v = (mv : ℚ) * 60 + sv)
    ∧ (time_to_seconds "1:23.456" = some (83456 / 1000)
        ∧ time_to_seconds "garbage" = none
        ∧ lap_to_seconds "1:23.456" = some (83456 / 1000)
        ∧ lap_to_seconds "01:02:03" = none
        ∧ lap_to_seconds "90" = none
        ∧ lap_to_seconds "garbage" = none) := by
  refine ⟨time_to_seconds_hms,
    fun ms ss mv sv h2 h3 => ⟨time_to_seconds_ms ms ss mv sv h2 h3,
      lap_to_seconds_ms ms ss mv sv h2 h3⟩,
    time_to_seconds_bare, time_to_seconds_shapes, lap_to_seconds_shapes,
    ?_, rfl, ?_, rfl, rfl, rfl⟩
  · have h : time_to_seconds "1:23.456"
        = some (((1 : ℤ) : ℚ) * 60 + (((23 : ℕ) : ℚ) + ((456 : ℕ) : ℚ) / (10 : ℚ) ^ 3)) := rfl
    rw [h]; norm_num
  · have h : lap_to_seconds "1:23.456"
        = some (((1 : ℤ) : ℚ) * 60 + (((23 : ℕ) : ℚ) + ((456 : ℕ) : ℚ) / (10 : ℚ) ^ 3)) := rfl
    rw [h]; norm_num

/-- C1 witness: the `h:m:s` conversion applied to the parts of
`"01:02:03"`. -/
theorem C1_amended_conversions_witness :
    time_to_seconds (String.mk ("01".data ++ ':' :: ("02".data ++ ':' :: "03".data)))
      = some (((1 : ℤ) : ℚ) * 3600 + ((2 : ℤ) : ℚ) * 60 + (3 : ℚ)) :=
  C1_amended_conversions.1 "01".data "02".data "03".data 1 2 3
    (by decide) (by decide) (by decide)
